import Mathlib

/-!
Verification of the markdown-to-HTML renderer and the conversion endpoints of
the strat-ai export servers.

The renderer `markdown_to_html` (src/export-api-v2.py, lines 26-91) is embedded
over `List Char`:
  * `replaceAll` models Python's `str.replace` for a single-character pattern;
    `escapeHtml` chains the three replacements of line 29 in source order.
  * `splitLines` models `str.split('\n')` (keeps empty pieces, yields `[[]]`
    on the empty string).
  * `pyStrip` models `str.strip()` restricted to the ASCII whitespace
    characters Python strips; none of the verified properties depend on the
    non-ASCII part of Python's whitespace set.
  * `formatLine` is the per-line classification cascade (lines 36-50),
    `formatLines` the accumulating loop, and `joinNl` models `'\n'.join`.
  * `tmplHead`/`tmplMid`/`tmplTail` are the literal pieces of the f-string
    template around the two interpolation points `{title}` and `{html}`
    (with `{{`/`}}` rendered as the single braces Python produces).

The `do_POST` handlers of the three server variants are embedded as functions
of the parsed request body; the external conversion steps (Gotenberg, the
python-docx library, the conversion shell script) are abstracted as oracle
parameters, and every call made to one of them is recorded in the result so
that "no conversion was attempted" is expressible.
-/

/-- One pass of Python's `str.replace(c, r)` for a single-character pattern:
each occurrence of `c` is replaced by `r`, scanning left to right. -/
def replaceAll (c : Char) (r : List Char) : List Char → List Char
  | [] => []
  | x :: xs => (if x = c then r else [x]) ++ replaceAll c r xs

/-- Line 29 of `export-api-v2.py`:
`markdown.replace('&', '&amp;').replace('<', '&lt;').replace('>', '&gt;')`,
the three replacements applied to the whole text in that fixed order. -/
def escapeHtml (s : List Char) : List Char :=
  replaceAll '>' "&gt;".data (replaceAll '<' "&lt;".data (replaceAll '&' "&amp;".data s))

/-- Single-character escaping table; used to state that the sequential
replacements of `escapeHtml` act once, character by character. -/
def escapeChar (c : Char) : List Char :=
  if c = '&' then "&amp;".data
  else if c = '<' then "&lt;".data
  else if c = '>' then "&gt;".data
  else [c]

/-- Character-by-character escaping of a whole text (the single-pass form of
`escapeHtml`). -/
def escapeChars : List Char → List Char
  | [] => []
  | c :: cs => escapeChar c ++ escapeChars cs

/-- Python's `str.split('\n')`: split on every line feed, keeping empty
pieces; the empty string yields the single empty line. -/
def splitLines : List Char → List (List Char)
  | [] => [[]]
  | c :: cs =>
    if c = '\n' then [] :: splitLines cs
    else
      match splitLines cs with
      | [] => [[c]]
      | l :: ls => (c :: l) :: ls

/-- The ASCII whitespace characters stripped by Python's `str.strip()`. -/
def isPySpace (c : Char) : Bool :=
  c = ' ' || c = '\t' || c = '\n' || c = '\r' || c = '\x0b' || c = '\x0c'

/-- Drop the trailing characters satisfying `p`. -/
def dropTrailWhile (p : Char → Bool) (l : List Char) : List Char :=
  (l.reverse.dropWhile p).reverse

/-- Python's `line.strip()`: remove leading and trailing whitespace. -/
def pyStrip (l : List Char) : List Char :=
  dropTrailWhile isPySpace (l.dropWhile isPySpace)

/-- Python's `line.startswith(p)` (argument order: the line, then the
candidate marker). -/
def startsWith (l p : List Char) : Bool :=
  match p, l with
  | [], _ => true
  | _ :: _, [] => false
  | q :: qs, c :: cs => (c == q) && startsWith cs qs

/-- Lines 36-50 of `export-api-v2.py`: the per-line classification cascade.
Marker checks come in the source order `'#### '`, `'### '`, `'## '`, `'# '`,
then the horizontal rule, then non-blank paragraph, else a line break. -/
def formatLine (line : List Char) : List Char :=
  if startsWith line "#### ".data then "<h4>".data ++ line.drop 5 ++ "</h4>".data
  else if startsWith line "### ".data then "<h3>".data ++ line.drop 4 ++ "</h3>".data
  else if startsWith line "## ".data then "<h2>".data ++ line.drop 3 ++ "</h2>".data
  else if startsWith line "# ".data then "<h1>".data ++ line.drop 2 ++ "</h1>".data
  else if pyStrip line = "---".data then "<hr>".data
  else if pyStrip line ≠ [] then "<p>".data ++ line ++ "</p>".data
  else "<br>".data

/-- The `for line in lines: formatted_lines.append(...)` loop: one rendered
block appended per input line, in order. -/
def formatLines : List (List Char) → List (List Char)
  | [] => []
  | l :: ls => formatLine l :: formatLines ls

/-- Python's `'\n'.join`. -/
def joinNl : List (List Char) → List Char
  | [] => []
  | [x] => x
  | x :: y :: ys => x ++ '\n' :: joinNl (y :: ys)

/-- Template text of the returned f-string up to (and including) `<title>`,
immediately before the `{title}` interpolation. -/
def tmplHead : List Char :=
  "<!DOCTYPE html>\n<html>\n<head>\n    <meta charset=\"UTF-8\">\n    <title>".data

/-- Template text between the `{title}` and `{html}` interpolation points:
the closing title tag, the inline stylesheet, and the opening of the body. -/
def tmplMid : List Char :=
  ("</title>\n    <style>\n        body \x7b\n            font-family: -apple-system, BlinkMacSystemFont, \x27Segoe UI\x27, Roboto, \x27Helvetica Neue\x27, Arial, sans-serif;\n            max-width: 800px;\n            margin: 40px auto;\n            padding: 20px;\n            line-height: 1.6;\n            color: #333;\n        \x7d\n        h1 \x7b color: #2c3e50; border-bottom: 2px solid #3498db; padding-bottom: 10px; \x7d\n        h2 \x7b color: #34495e; margin-top: 24px; \x7d\n        h3 \x7b color: #7f8c8d; \x7d\n        pre \x7b\n            background: #f4f4f4;\n            padding: 12px;\n            border-radius: 5px;\n            overflow-x: auto;\n            border-left: 3px solid #3498db;\n        \x7d\n        code \x7b\n            background: #f4f4f4;\n            padding: 2px 6px;\n            border-radius: 3px;\n            font-family: \x27Courier New\x27, monospace;\n        \x7d\n        p \x7b margin: 12px 0; \x7d\n        hr \x7b border: none; border-top: 1px solid #ddd; margin: 24px 0; \x7d\n    </style>\n</head>\n<body>\n").data

/-- Template text after the `{html}` interpolation: closing body and html. -/
def tmplTail : List Char :=
  "\n</body>\n</html>".data

/-- The joined rendered body: escape the whole text, split into lines,
format each line, join with line feeds (lines 29-52 of the source). -/
def renderedBody (markdown : List Char) : List Char :=
  joinNl (formatLines (splitLines (escapeHtml markdown)))

/-- `markdown_to_html` of `export-api-v2.py` (lines 26-91): the escaped,
line-rendered body embedded in the fixed document template, with the title
inserted verbatim. -/
def markdown_to_html (markdown title : List Char) : List Char :=
  tmplHead ++ title ++ tmplMid ++ renderedBody markdown ++ tmplTail

/-! ### A scanner for the literal substring `<script>`

`hitScript st l` scans `l` with a string-matching automaton whose state `st`
counts how many characters of `<script>` immediately precede the scanner's
position; it returns `true` exactly when a full occurrence of `<script>` is
crossed. It lets the absence of `<script>` in a concatenation be established
piecewise, which a direct infix argument across `++` boundaries would not. -/

/-- The characters of the pattern `<script>` by position. -/
def scriptPatChar : Nat → Char
  | 0 => '<'
  | 1 => 's'
  | 2 => 'c'
  | 3 => 'r'
  | 4 => 'i'
  | 5 => 'p'
  | 6 => 't'
  | 7 => '>'
  | _ => ' '

/-- The pattern `<script>` as a character list. -/
def scriptPat : List Char := "<script>".data

/-- The escaped form `&lt;script&gt;` that `escapeHtml` produces for it. -/
def escapedScript : List Char := "&lt;script&gt;".data

/-- Automaton transition: extend the current match, restart on `<`, or drop
to the empty match. -/
def stepScript (st : Nat) (c : Char) : Nat :=
  if c = scriptPatChar st then st + 1
  else if c = '<' then 1
  else 0

/-- State after scanning a whole list. -/
def runScript (st : Nat) (l : List Char) : Nat :=
  l.foldl stepScript st

/-- `true` iff scanning `l` from state `st` ever completes the pattern. -/
def hitScript (st : Nat) : List Char → Bool
  | [] => false
  | c :: r => if st = 7 ∧ c = '>' then true else hitScript (stepScript st c) r

/-! ### The spec's rule table for block classification (section 4.1 of the
specification), used to compare the code's cascade against an explicit
closed tagged variant with seven cases. -/

/-- The seven block classifications of the specification's data model. -/
inductive BlockClass where
  | h4 (content : List Char)
  | h3 (content : List Char)
  | h2 (content : List Char)
  | h1 (content : List Char)
  | hrule
  | para (content : List Char)
  | brk

/-- Modelled from the spec: the ordered rule table of section 4.1 step 3
(longest marker first, then horizontal rule, then non-blank paragraph,
else line break). -/
def classifyLine (line : List Char) : BlockClass :=
  if startsWith line "#### ".data then .h4 (line.drop 5)
  else if startsWith line "### ".data then .h3 (line.drop 4)
  else if startsWith line "## ".data then .h2 (line.drop 3)
  else if startsWith line "# ".data then .h1 (line.drop 2)
  else if pyStrip line = "---".data then .hrule
  else if pyStrip line ≠ [] then .para line
  else .brk

/-- Modelled from the spec: section 4.1 step 4, rendering one classified
block to its HTML tag. -/
def renderBlock : BlockClass → List Char
  | .h4 c => "<h4>".data ++ c ++ "</h4>".data
  | .h3 c => "<h3>".data ++ c ++ "</h3>".data
  | .h2 c => "<h2>".data ++ c ++ "</h2>".data
  | .h1 c => "<h1>".data ++ c ++ "</h1>".data
  | .hrule => "<hr>".data
  | .para c => "<p>".data ++ c ++ "</p>".data
  | .brk => "<br>".data

/-! ### The `do_POST` handlers of the three server variants

The handlers are embedded as functions of the request path and the parsed
JSON body. `data.get('markdown', '')` / `data.get('format', 'pdf')` become
`Option.getD`; Python's falsiness test `if not markdown` on a string is
emptiness. The external conversion machinery is passed in as oracles
(`pdf`/`docx` for export-api-v2, the conversion script for the other two),
and every oracle invocation is recorded in `PostResult.calls`, so an empty
`calls` list states that no conversion was attempted. -/

/-- A parsed JSON request body: the two fields the handlers read. -/
structure ParsedBody where
  markdown : Option (List Char)
  format : Option (List Char)

/-- One invocation of an external conversion step. -/
inductive ConvCall where
  | renderHtml (markdown title : List Char)
  | gotenberg (html : List Char)
  | docxBuild (markdown : List Char)
  | scriptRun (markdown fmt : List Char)

/-- The observable outcome of a `do_POST` call: the HTTP status sent, the
error message or produced filename, and the conversion calls made. -/
structure PostResult where
  status : Nat
  message : List Char
  calls : List ConvCall

/-- Outcome of running `convert-export.sh` on a saved markdown file. -/
structure ScriptResult where
  returncode : Int
  stderr : List Char
  outputExists : Bool
  output : List Nat

/-- `do_POST` of `export-api-v2.py` (lines 165-219): route check, empty
markdown guard, then pdf via `markdown_to_html` + Gotenberg, docx via the
document library, else an unsupported-format error. -/
def do_POST_v2 (pdf : List Char → Except (List Char) (List Nat))
    (docx : List Char → Except (List Char) (List Nat))
    (fname : List Char → List Char → List Char)
    (path : List Char) (body : ParsedBody) : PostResult :=
  if path = "/api/convert".data then
    let markdown := body.markdown.getD []
    let fmt := body.format.getD "pdf".data
    if markdown = [] then
      ⟨400, "No markdown content provided".data, []⟩
    else if fmt = "pdf".data then
      let html := markdown_to_html markdown "Conversation Export".data
      match pdf html with
      | .ok _ =>
        ⟨200, fname markdown fmt, [.renderHtml markdown "Conversation Export".data, .gotenberg html]⟩
      | .error e =>
        ⟨500, e, [.renderHtml markdown "Conversation Export".data, .gotenberg html]⟩
    else if fmt = "docx".data then
      match docx markdown with
      | .ok _ => ⟨200, fname markdown fmt, [.docxBuild markdown]⟩
      | .error e => ⟨500, e, [.docxBuild markdown]⟩
    else ⟨400, "Unsupported format: ".data ++ fmt, []⟩
  else ⟨404, [], []⟩

/-- `do_POST` of `export-api.py` (lines 26-96): route check, empty markdown
guard, then conversion through the external shell script; a nonzero exit
code or a missing output file yields a 500. -/
def do_POST_v1 (script : List Char → List Char → ScriptResult)
    (fname : List Char → List Char → List Char)
    (path : List Char) (body : ParsedBody) : PostResult :=
  if path = "/api/convert".data then
    let markdown := body.markdown.getD []
    let fmt := body.format.getD "pdf".data
    if markdown = [] then
      ⟨400, "No markdown content provided".data, []⟩
    else
      let r := script markdown fmt
      if r.returncode ≠ 0 ∨ r.outputExists = false then
        ⟨500, "Conversion failed: ".data ++ r.stderr, [.scriptRun markdown fmt]⟩
      else ⟨200, fname markdown fmt, [.scriptRun markdown fmt]⟩
  else ⟨404, [], []⟩

/-- `do_POST` of `download-server.py` (lines 145-200): route check, empty
markdown guard, then conversion through the external shell script; a
nonzero exit code yields a 500. -/
def do_POST_download (script : List Char → List Char → ScriptResult)
    (path : List Char) (body : ParsedBody) : PostResult :=
  if path = "/convert".data then
    let markdown := body.markdown.getD []
    let fmt := body.format.getD "pdf".data
    if markdown = [] then
      ⟨400, "No markdown content provided".data, []⟩
    else
      let r := script markdown fmt
      if r.returncode ≠ 0 then
        ⟨500, "Conversion failed: ".data ++ r.stderr, [.scriptRun markdown fmt]⟩
      else ⟨200, "conversation.".data ++ fmt, [.scriptRun markdown fmt]⟩
  else ⟨404, [], []⟩

/-! ### A scanner for the literal substring `<h1>`, used to check that the
level-4 heading document contains no `<h1>` element anywhere (same piecewise
technique as the `<script>` scanner). -/

/-- The characters of the pattern `<h1>` by position. -/
def h1PatChar : Nat → Char
  | 0 => '<'
  | 1 => 'h'
  | 2 => '1'
  | 3 => '>'
  | _ => ' '

/-- Automaton transition for the pattern `<h1>`. -/
def stepH1 (st : Nat) (c : Char) : Nat :=
  if c = h1PatChar st then st + 1
  else if c = '<' then 1
  else 0

/-- State after scanning a whole list for `<h1>`. -/
def runH1 (st : Nat) (l : List Char) : Nat :=
  l.foldl stepH1 st

/-- `true` iff scanning `l` from state `st` ever completes `<h1>`. -/
def hitH1 (st : Nat) : List Char → Bool
  | [] => false
  | c :: r => if st = 3 ∧ c = '>' then true else hitH1 (stepH1 st c) r


set_option maxRecDepth 10000

example : escapeHtml "a&b".data = "a&amp;b".data := by decide
example : escapeHtml "<p>".data = "&lt;p&gt;".data := by decide
example : splitLines "a\n\nb".data = ["a".data, [], "b".data] := by decide
example : formatLine "#### Deep".data = "<h4>Deep</h4>".data := by decide
example : formatLine "  ---  ".data = "<hr>".data := by decide
example : formatLine "##### x".data = "<p>##### x</p>".data := by decide
example : formatLine "".data = "<br>".data := by decide

example : renderedBody "# T\nx & y\n ---\t\n\n#### Deep\n##### x\n<script>alert(1)</script>\n## h\n### s".data = "<h1>T</h1>\n<p>x &amp; y</p>\n<hr>\n<br>\n<h4>Deep</h4>\n<p>##### x</p>\n<p>&lt;script&gt;alert(1)&lt;/script&gt;</p>\n<h2>h</h2>\n<h3>s</h3>".data := by decide

/-! ### Basic lemmas about the escaping pass -/

lemma replaceAll_append (c : Char) (r : List Char) (a b : List Char) :
    replaceAll c r (a ++ b) = replaceAll c r a ++ replaceAll c r b := by
  induction a with
  | nil => simp [replaceAll]
  | cons x xs ih => simp [replaceAll, ih, List.append_assoc]

lemma escapeHtml_nil : escapeHtml [] = [] := rfl

lemma escapeStep (c : Char) :
    replaceAll '>' "&gt;".data (replaceAll '<' "&lt;".data
      (if c = '&' then "&amp;".data else [c])) = escapeChar c := by
  by_cases h1 : c = '&'
  · subst h1; rfl
  · rw [if_neg h1]
    by_cases h2 : c = '<'
    · subst h2; rfl
    · by_cases h3 : c = '>'
      · subst h3; rfl
      · unfold escapeChar
        rw [if_neg h1, if_neg h2, if_neg h3]
        simp [replaceAll, h2, h3]

lemma escapeHtml_cons (c : Char) (s : List Char) :
    escapeHtml (c :: s) = escapeChar c ++ escapeHtml s := by
  unfold escapeHtml
  rw [show replaceAll '&' "&amp;".data (c :: s)
      = (if c = '&' then "&amp;".data else [c]) ++ replaceAll '&' "&amp;".data s from rfl]
  rw [replaceAll_append, replaceAll_append, escapeStep]

lemma escapeHtml_eq_escapeChars (s : List Char) : escapeHtml s = escapeChars s := by
  induction s with
  | nil => rfl
  | cons c cs ih => rw [escapeHtml_cons, ih]; rfl

lemma escapeHtml_append (a b : List Char) :
    escapeHtml (a ++ b) = escapeHtml a ++ escapeHtml b := by
  induction a with
  | nil => rfl
  | cons x xs ih => simp [escapeHtml_cons, ih, List.append_assoc]

lemma escapeChar_no_lt (c c' : Char) (h : c' ∈ escapeChar c) : c' ≠ '<' := by
  unfold escapeChar at h
  split_ifs at h with h1 h2 h3
  · exact (by decide : ∀ x ∈ "&amp;".data, x ≠ '<') c' h
  · exact (by decide : ∀ x ∈ "&lt;".data, x ≠ '<') c' h
  · exact (by decide : ∀ x ∈ "&gt;".data, x ≠ '<') c' h
  · simp at h; subst h; exact h2

lemma escapeHtml_no_lt (s : List Char) : ∀ c' ∈ escapeHtml s, c' ≠ '<' := by
  induction s with
  | nil => simp [escapeHtml_nil]
  | cons c cs ih =>
    rw [escapeHtml_cons]
    intro c' hc'
    rcases List.mem_append.mp hc' with h | h
    · exact escapeChar_no_lt c c' h
    · exact ih c' h

lemma escapeChar_no_newline (c : Char) (hc : c ≠ '\n') : ∀ x ∈ escapeChar c, x ≠ '\n' := by
  unfold escapeChar
  split_ifs with h1 h2 h3
  · exact (by decide : ∀ x ∈ "&amp;".data, x ≠ '\n')
  · exact (by decide : ∀ x ∈ "&lt;".data, x ≠ '\n')
  · exact (by decide : ∀ x ∈ "&gt;".data, x ≠ '\n')
  · intro x hx; simp at hx; subst hx; exact hc

/-! ### Lemmas about line splitting -/

lemma splitLines_ne_nil : ∀ s, splitLines s ≠ [] := by
  intro s
  cases s with
  | nil => simp [splitLines]
  | cons c cs =>
    unfold splitLines
    split_ifs
    · simp
    · split <;> simp

lemma splitLines_cons_newline (cs : List Char) :
    splitLines ('\n' :: cs) = [] :: splitLines cs := by
  simp [splitLines]

lemma splitLines_cons_ne (c : Char) (cs : List Char) (h : c ≠ '\n') :
    splitLines (c :: cs) = (c :: (splitLines cs).headI) :: (splitLines cs).tail := by
  have hd : splitLines (c :: cs)
      = (if c = '\n' then [] :: splitLines cs
        else match splitLines cs with
          | [] => [[c]]
          | l :: ls => (c :: l) :: ls) := rfl
  cases hs : splitLines cs with
  | nil => exact absurd hs (splitLines_ne_nil cs)
  | cons l ls =>
    rw [hd, if_neg h, hs]
    simp

lemma splitLines_append_no_newline :
    ∀ (a s : List Char), (∀ c ∈ a, c ≠ '\n') →
      splitLines (a ++ s) = (a ++ (splitLines s).headI) :: (splitLines s).tail := by
  intro a
  induction a with
  | nil =>
    intro s _
    simp only [List.nil_append]
    cases hs : splitLines s with
    | nil => exact absurd hs (splitLines_ne_nil s)
    | cons l ls => simp
  | cons x a ih =>
    intro s h
    have hx : x ≠ '\n' := h x (by simp)
    rw [List.cons_append, splitLines_cons_ne x _ hx, ih s (fun c hc => h c (by simp [hc]))]
    simp

lemma splitLines_escapeHtml : ∀ m, splitLines (escapeHtml m) = (splitLines m).map escapeHtml := by
  intro m
  induction m with
  | nil => rfl
  | cons c cs ih =>
    rw [escapeHtml_cons]
    by_cases hc : c = '\n'
    · subst hc
      rw [show escapeChar '\n' = ['\n'] from rfl,
        show (['\n'] ++ escapeHtml cs) = '\n' :: escapeHtml cs from rfl,
        splitLines_cons_newline, splitLines_cons_newline]
      simp [ih, escapeHtml_nil]
    · rw [splitLines_append_no_newline _ _ (escapeChar_no_newline c hc),
        splitLines_cons_ne c cs hc, ih]
      cases hs : splitLines cs with
      | nil => exact absurd hs (splitLines_ne_nil cs)
      | cons l ls => simp [escapeHtml_cons]

lemma mem_of_mem_splitLines : ∀ (s l : List Char), l ∈ splitLines s → ∀ c ∈ l, c ∈ s := by
  intro s
  induction s with
  | nil =>
    intro l hl c hc
    simp [splitLines] at hl
    subst hl
    simp at hc
  | cons a s ih =>
    intro l hl c hc
    by_cases ha : a = '\n'
    · subst ha
      rw [splitLines_cons_newline] at hl
      rcases List.mem_cons.mp hl with rfl | hl'
      · simp at hc
      · exact List.mem_cons_of_mem _ (ih l hl' c hc)
    · rw [splitLines_cons_ne a s ha] at hl
      rcases List.mem_cons.mp hl with rfl | hl'
      · rcases List.mem_cons.mp hc with rfl | hc'
        · exact List.mem_cons_self _ _
        · have hh : (splitLines s).headI ∈ splitLines s := by
            cases hs : splitLines s with
            | nil => exact absurd hs (splitLines_ne_nil s)
            | cons x xs => simp
          exact List.mem_cons_of_mem _ (ih _ hh c hc')
      · have hm : l ∈ splitLines s := by
          cases hs : splitLines s with
          | nil => exact absurd hs (splitLines_ne_nil s)
          | cons x xs =>
            rw [hs] at hl'
            exact List.mem_cons_of_mem _ (by simpa using hl')
        exact List.mem_cons_of_mem _ (ih l hm c hc)

/-! ### Lemmas about marker checks, stripping, and line classification -/

lemma startsWith_iff (l p : List Char) : startsWith l p = true ↔ ∃ r, l = p ++ r := by
  induction p generalizing l with
  | nil => simp [startsWith]
  | cons q qs ih =>
    cases l with
    | nil =>
      simp only [startsWith]
      constructor
      · intro h; exact absurd h (by simp)
      · rintro ⟨r, hr⟩; exact absurd hr (by simp)
    | cons c cs =>
      simp only [startsWith, Bool.and_eq_true, beq_iff_eq, ih]
      constructor
      · rintro ⟨rfl, r, rfl⟩; exact ⟨r, rfl⟩
      · rintro ⟨r, hr⟩
        rw [List.cons_append] at hr
        injection hr with h1 h2
        exact ⟨h1, r, h2⟩

lemma startsWith_append (p r : List Char) : startsWith (p ++ r) p = true :=
  (startsWith_iff _ _).mpr ⟨r, rfl⟩

lemma mem_dropWhile_of_mem {p : Char → Bool} {x : Char} {l : List Char}
    (hx : x ∈ l) (hpx : p x = false) : x ∈ l.dropWhile p := by
  rw [← List.takeWhile_append_dropWhile (p := p) (l := l)] at hx
  rcases List.mem_append.mp hx with h | h
  · exact absurd (List.mem_takeWhile_imp h) (by simp [hpx])
  · exact h

lemma mem_pyStrip {x : Char} {l : List Char} (hx : x ∈ l) (h : isPySpace x = false) :
    x ∈ pyStrip l := by
  unfold pyStrip dropTrailWhile
  rw [List.mem_reverse]
  exact mem_dropWhile_of_mem (List.mem_reverse.mpr (mem_dropWhile_of_mem hx h)) h

/-- If a list containing `x` decomposes as a marker followed by a remainder
and `x` is not a character of the marker, the part before `x` covers the
whole marker. -/
lemma marker_le_length : ∀ (M C : List Char) (x : Char) (r D : List Char),
    C ++ x :: r = M ++ D → x ∉ M → M.length ≤ C.length := by
  intro M
  induction M with
  | nil => simp
  | cons m M' ih =>
    intro C x r D h hx
    cases C with
    | nil =>
      rw [List.nil_append, List.cons_append] at h
      injection h with h1 _
      exact absurd (h1 ▸ List.mem_cons_self m M') hx
    | cons c C' =>
      rw [List.cons_append, List.cons_append] at h
      injection h with _ h2
      have := ih C' x r D h2 (fun hm => hx (List.mem_cons_of_mem _ hm))
      simp only [List.length_cons]
      exact Nat.succ_le_succ this

lemma formatLines_eq_map : ∀ ls, formatLines ls = ls.map formatLine := by
  intro ls
  induction ls with
  | nil => rfl
  | cons l ls ih => simp [formatLines, ih]

lemma mem_infix_joinNl : ∀ (xs : List (List Char)) (x : List Char), x ∈ xs → x <:+: joinNl xs := by
  intro xs
  induction xs with
  | nil => simp
  | cons a ys ih =>
    intro x hx
    cases ys with
    | nil =>
      simp at hx
      subst hx
      exact ⟨[], [], by simp [joinNl]⟩
    | cons b bs =>
      rcases List.mem_cons.mp hx with rfl | hx'
      · exact ⟨[], '\n' :: joinNl (b :: bs), by simp [joinNl]⟩
      · rcases ih x hx' with ⟨u, v, huv⟩
        exact ⟨a ++ '\n' :: u, v, by simp [joinNl, ← huv, List.append_assoc]⟩

lemma infix_wrap {p m : List Char} (a b : List Char) (h : p <:+: m) : p <:+: a ++ m ++ b := by
  rcases h with ⟨u, v, huv⟩
  exact ⟨a ++ u, v ++ b, by simp [← huv, List.append_assoc]⟩

lemma runScript_nil (st : Nat) : runScript st [] = st := rfl

lemma runScript_cons (st : Nat) (c : Char) (l : List Char) :
    runScript st (c :: l) = runScript (stepScript st c) l := rfl

lemma runScript_append (st : Nat) (a b : List Char) :
    runScript st (a ++ b) = runScript (runScript st a) b :=
  List.foldl_append _ _ _ _

lemma hitScript_append (a b : List Char) : ∀ st,
    hitScript st (a ++ b) = (hitScript st a || hitScript (runScript st a) b) := by
  induction a with
  | nil => intro st; simp [hitScript, runScript_nil]
  | cons c a ih =>
    intro st
    rw [List.cons_append]
    show (if st = 7 ∧ c = '>' then true else hitScript (stepScript st c) (a ++ b)) = _
    rw [runScript_cons]
    by_cases h : st = 7 ∧ c = '>'
    · simp [hitScript, h]
    · simp only [if_neg h, ih (stepScript st c)]
      simp [hitScript, h]

lemma stepScript_lt (st : Nat) : stepScript st '<' = 1 := by
  unfold stepScript
  by_cases h : st = 0
  · subst h; simp [scriptPatChar]
  · rw [if_neg, if_pos rfl]
    intro hc
    match st, h with
    | 1, _ => exact absurd hc (by decide)
    | 2, _ => exact absurd hc (by decide)
    | 3, _ => exact absurd hc (by decide)
    | 4, _ => exact absurd hc (by decide)
    | 5, _ => exact absurd hc (by decide)
    | 6, _ => exact absurd hc (by decide)
    | 7, _ => exact absurd hc (by decide)
    | n + 8, _ => exact absurd hc (by simp [scriptPatChar])

/-- Completeness: a list that literally contains `<script>` makes the scanner
fire, from any starting state. -/
lemma hitScript_complete : ∀ (t : List Char) (u : List Char) (st : Nat),
    hitScript st (t ++ scriptPat ++ u) = true := by
  intro t
  induction t with
  | nil =>
    intro u st
    show hitScript st ('<' :: 's' :: 'c' :: 'r' :: 'i' :: 'p' :: 't' :: '>' :: u) = true
    show (if st = 7 ∧ '<' = '>' then true
      else hitScript (stepScript st '<') ('s' :: 'c' :: 'r' :: 'i' :: 'p' :: 't' :: '>' :: u)) = true
    rw [if_neg (by simp), stepScript_lt]
    simp [hitScript, stepScript, scriptPatChar]
  | cons a t ih =>
    intro u st
    rw [List.cons_append, List.cons_append]
    show (if st = 7 ∧ a = '>' then true
      else hitScript (stepScript st a) (t ++ scriptPat ++ u)) = true
    split_ifs with h
    · rfl
    · exact ih u (stepScript st a)

lemma scriptPat_take_succ (st : Nat) (h : st ≤ 7) :
    scriptPat.take (st + 1) = scriptPat.take st ++ [scriptPatChar st] := by
  interval_cases st <;> decide

/-- Soundness: if the scanner fires from state `st`, then the text preceded
by the already-matched prefix `scriptPat.take st` contains `<script>`. -/
lemma hitScript_sound : ∀ (l : List Char) (st : Nat), st ≤ 7 →
    hitScript st l = true → scriptPat <:+: scriptPat.take st ++ l := by
  intro l
  induction l with
  | nil => intro st _ h; exact absurd h (by simp [hitScript])
  | cons c r ih =>
    intro st hst h
    rw [show hitScript st (c :: r)
      = (if st = 7 ∧ c = '>' then true else hitScript (stepScript st c) r) from rfl] at h
    split_ifs at h with hacc
    · rcases hacc with ⟨rfl, rfl⟩
      exact ⟨[], r, by rfl⟩
    · have hstep : stepScript st c ≤ 7 := by
        unfold stepScript
        split_ifs with h1 h2
        · rcases Nat.lt_or_ge st 7 with hlt | hge
          · omega
          · exfalso
            have : st = 7 := by omega
            subst this
            exact hacc ⟨rfl, by simpa [scriptPatChar] using h1⟩
        · omega
        · omega
      have hsfx : scriptPat.take (stepScript st c) <:+ scriptPat.take st ++ [c] := by
        unfold stepScript
        split_ifs with h1 h2
        · rw [h1, ← scriptPat_take_succ st hst]
        · rw [h2]
          exact ⟨scriptPat.take st, rfl⟩
        · exact ⟨scriptPat.take st ++ [c], by simp⟩
      have hmain := ih (stepScript st c) hstep h
      have : scriptPat.take (stepScript st c) ++ r <:+: (scriptPat.take st ++ [c]) ++ r := by
        rcases hsfx with ⟨w, hw⟩
        exact ⟨w, [], by simp [← hw, List.append_assoc]⟩
      refine hmain.trans (by simpa [List.append_assoc] using this)

lemma hitScript_eq_false_of_not_infix {l : List Char} (h : ¬ scriptPat <:+: l) :
    hitScript 0 l = false := by
  by_contra hb
  have := hitScript_sound l 0 (by omega) (by simpa using Bool.of_not_eq_false hb)
  simp at this
  exact h this

lemma not_infix_of_hitScript_eq_false {l : List Char} (h : hitScript 0 l = false) :
    ¬ scriptPat <:+: l := by
  rintro ⟨u, v, huv⟩
  have := hitScript_complete u v 0
  rw [huv] at this
  rw [h] at this
  exact absurd this (by simp)

lemma runScript_le_of_hit_false : ∀ (l : List Char) (st : Nat), st ≤ 7 →
    hitScript st l = false → runScript st l ≤ 7 := by
  intro l
  induction l with
  | nil => intro st h _; simpa [runScript_nil] using h
  | cons c r ih =>
    intro st hst h
    rw [show hitScript st (c :: r)
      = (if st = 7 ∧ c = '>' then true else hitScript (stepScript st c) r) from rfl] at h
    split_ifs at h with hacc
    rw [runScript_cons]
    refine ih (stepScript st c) ?_ h
    unfold stepScript
    split_ifs with h1 h2
    · rcases Nat.lt_or_ge st 7 with hlt | hge
      · omega
      · exfalso
        have : st = 7 := by omega
        subst this
        exact hacc ⟨rfl, by simpa [scriptPatChar] using h1⟩
    · omega
    · omega

lemma scan_zero_no_lt : ∀ (l : List Char), (∀ c ∈ l, c ≠ '<') →
    hitScript 0 l = false ∧ runScript 0 l = 0 := by
  intro l
  induction l with
  | nil => exact fun _ => ⟨rfl, rfl⟩
  | cons c r ih =>
    intro h
    have hc : c ≠ '<' := h c (by simp)
    have hstep : stepScript 0 c = 0 := by
      unfold stepScript
      rw [if_neg (by simpa [scriptPatChar] using hc), if_neg hc]
    constructor
    · show (if (0 : Nat) = 7 ∧ c = '>' then true else hitScript (stepScript 0 c) r) = false
      rw [if_neg (by simp), hstep]
      exact (ih (fun x hx => h x (by simp [hx]))).1
    · rw [runScript_cons, hstep]
      exact (ih (fun x hx => h x (by simp [hx]))).2

lemma scan_zero_append {a b : List Char}
    (ha : hitScript 0 a = false ∧ runScript 0 a = 0)
    (hb : hitScript 0 b = false ∧ runScript 0 b = 0) :
    hitScript 0 (a ++ b) = false ∧ runScript 0 (a ++ b) = 0 := by
  rw [hitScript_append, runScript_append, ha.1, ha.2, hb.2]
  simp [hb.1]

lemma scan_zero_formatLine (line : List Char) (h : ∀ c ∈ line, c ≠ '<') :
    hitScript 0 (formatLine line) = false ∧ runScript 0 (formatLine line) = 0 := by
  have hdrop : ∀ n, ∀ c ∈ line.drop n, c ≠ '<' := fun n c hc => h c (List.mem_of_mem_drop hc)
  unfold formatLine
  split_ifs with h1 h2 h3 h4 h5 h6
  · exact scan_zero_append (scan_zero_append (by decide) (scan_zero_no_lt _ (hdrop 5))) (by decide)
  · exact scan_zero_append (scan_zero_append (by decide) (scan_zero_no_lt _ (hdrop 4))) (by decide)
  · exact scan_zero_append (scan_zero_append (by decide) (scan_zero_no_lt _ (hdrop 3))) (by decide)
  · exact scan_zero_append (scan_zero_append (by decide) (scan_zero_no_lt _ (hdrop 2))) (by decide)
  · exact (by decide)
  · exact scan_zero_append (scan_zero_append (by decide) (scan_zero_no_lt _ h)) (by decide)
  · exact (by decide)

lemma scan_zero_joinNl : ∀ (xs : List (List Char)),
    (∀ x ∈ xs, hitScript 0 x = false ∧ runScript 0 x = 0) →
    hitScript 0 (joinNl xs) = false ∧ runScript 0 (joinNl xs) = 0 := by
  intro xs
  induction xs with
  | nil => exact fun _ => ⟨rfl, rfl⟩
  | cons a ys ih =>
    intro h
    cases ys with
    | nil => simpa [joinNl] using h a (by simp)
    | cons b bs =>
      rw [show joinNl (a :: b :: bs) = a ++ ['\n'] ++ joinNl (b :: bs) by simp [joinNl]]
      exact scan_zero_append (scan_zero_append (h a (by simp)) (by decide))
        (ih (fun x hx => h x (by simp [hx])))

lemma scan_zero_renderedBody (m : List Char) :
    hitScript 0 (renderedBody m) = false ∧ runScript 0 (renderedBody m) = 0 := by
  unfold renderedBody
  rw [formatLines_eq_map]
  apply scan_zero_joinNl
  intro x hx
  rcases List.mem_map.mp hx with ⟨line, hline, rfl⟩
  apply scan_zero_formatLine
  intro c hc
  exact escapeHtml_no_lt m c (mem_of_mem_splitLines _ _ hline c hc)

lemma tmplHead_scan : hitScript 0 tmplHead = false ∧ runScript 0 tmplHead = 0 := by decide

lemma tmplMid_scan : ∀ st, st ≤ 7 →
    hitScript st tmplMid = false ∧ runScript st tmplMid = 0 := by
  intro st h
  interval_cases st <;> exact (by decide)

lemma tmplTail_scan : ∀ st, st ≤ 7 → hitScript st tmplTail = false := by
  intro st h
  interval_cases st <;> exact (by decide)

/-- No input markdown and no `<script>`-free title can make the rendered
document contain a literal `<script>`. -/
lemma markdown_to_html_no_script (m t : List Char) (ht : ¬ scriptPat <:+: t) :
    ¬ scriptPat <:+: markdown_to_html m t := by
  apply not_infix_of_hitScript_eq_false
  have hT : hitScript 0 t = false := hitScript_eq_false_of_not_infix ht
  have hTr : runScript 0 t ≤ 7 := runScript_le_of_hit_false t 0 (by omega) hT
  have hM := tmplMid_scan (runScript 0 t) hTr
  have hB := scan_zero_renderedBody m
  have r1 : runScript 0 (tmplHead ++ t) = runScript 0 t := by
    rw [runScript_append, tmplHead_scan.2]
  have r2 : runScript 0 (tmplHead ++ t ++ tmplMid) = 0 := by
    rw [runScript_append, r1, hM.2]
  have r3 : runScript 0 (tmplHead ++ t ++ tmplMid ++ renderedBody m) = 0 := by
    rw [runScript_append, r2, hB.2]
  have s1 : hitScript 0 (tmplHead ++ t) = false := by
    rw [hitScript_append, tmplHead_scan.1, tmplHead_scan.2, hT]
    rfl
  have s2 : hitScript 0 (tmplHead ++ t ++ tmplMid) = false := by
    rw [hitScript_append, s1, r1, hM.1]
    rfl
  have s3 : hitScript 0 (tmplHead ++ t ++ tmplMid ++ renderedBody m) = false := by
    rw [hitScript_append, s2, r2, hB.1]
    rfl
  show hitScript 0 (tmplHead ++ t ++ tmplMid ++ renderedBody m ++ tmplTail) = false
  rw [hitScript_append, s3, r3, tmplTail_scan 0 (by omega)]
  rfl

/-! ### The escaped occurrence `&lt;script&gt;` survives into the output -/

/-- A newline-free occurrence inside the text survives line splitting: some
line of the split contains it. -/
lemma occ_mem_splitLines : ∀ (A occ B : List Char), (∀ c ∈ occ, c ≠ '\n') →
    ∃ C D, (C ++ occ ++ D) ∈ splitLines (A ++ occ ++ B) := by
  intro A
  induction A with
  | nil =>
    intro occ B hocc
    rw [List.nil_append, splitLines_append_no_newline occ B hocc]
    exact ⟨[], (splitLines B).headI, by simp⟩
  | cons a A' ih =>
    intro occ B hocc
    by_cases ha : a = '\n'
    · subst ha
      rw [List.cons_append, List.cons_append, splitLines_cons_newline]
      obtain ⟨C, D, hm⟩ := ih occ B hocc
      exact ⟨C, D, List.mem_cons_of_mem _ hm⟩
    · rw [List.cons_append, List.cons_append, splitLines_cons_ne _ _ ha]
      obtain ⟨C, D, hm⟩ := ih occ B hocc
      cases hs : splitLines (A' ++ occ ++ B) with
      | nil => exact absurd hs (splitLines_ne_nil _)
      | cons x xs =>
        rw [hs] at hm
        rcases List.mem_cons.mp hm with hx | hx
        · exact ⟨a :: C, D, by rw [← hx]; simp⟩
        · exact ⟨C, D, by
            simp only [List.tail_cons]
            exact List.mem_cons_of_mem _ hx⟩

lemma drop_occ_append {C D : List Char} (occ : List Char) (n : Nat) (hn : n ≤ C.length) :
    (C ++ occ ++ D).drop n = C.drop n ++ occ ++ D := by
  rw [List.append_assoc, List.drop_append_eq_append_drop]
  have h0 : n - C.length = 0 := by omega
  rw [h0]
  simp [List.append_assoc]

lemma marker_bound {C D r M : List Char} (hM : '&' ∉ M)
    (h : C ++ escapedScript ++ D = M ++ r) : M.length ≤ C.length := by
  apply marker_le_length M C '&' ("lt;script&gt;".data ++ D) r ?_ hM
  rw [← h, show escapedScript = '&' :: "lt;script&gt;".data from rfl]
  simp

/-- Whatever the classification of the line holding it, the escaped
occurrence shows up in the rendered block. -/
lemma escapedScript_infix_formatLine (C D : List Char) :
    escapedScript <:+: formatLine (C ++ escapedScript ++ D) := by
  have hamp : '&' ∈ C ++ escapedScript ++ D := by
    refine List.mem_append.mpr (Or.inl (List.mem_append.mpr (Or.inr ?_)))
    decide
  have hstrip : '&' ∈ pyStrip (C ++ escapedScript ++ D) :=
    mem_pyStrip hamp (by decide)
  unfold formatLine
  split_ifs with h1 h2 h3 h4 h5 h6
  · obtain ⟨r, hr⟩ := (startsWith_iff _ _).mp h1
    rw [drop_occ_append escapedScript 5 (marker_bound (by decide) hr)]
    exact infix_wrap _ _ ⟨C.drop 5, D, rfl⟩
  · obtain ⟨r, hr⟩ := (startsWith_iff _ _).mp h2
    rw [drop_occ_append escapedScript 4 (marker_bound (by decide) hr)]
    exact infix_wrap _ _ ⟨C.drop 4, D, rfl⟩
  · obtain ⟨r, hr⟩ := (startsWith_iff _ _).mp h3
    rw [drop_occ_append escapedScript 3 (marker_bound (by decide) hr)]
    exact infix_wrap _ _ ⟨C.drop 3, D, rfl⟩
  · obtain ⟨r, hr⟩ := (startsWith_iff _ _).mp h4
    rw [drop_occ_append escapedScript 2 (marker_bound (by decide) hr)]
    exact infix_wrap _ _ ⟨C.drop 2, D, rfl⟩
  · rw [h5] at hstrip
    exact absurd hstrip (by decide)
  · exact infix_wrap _ _ ⟨C, D, rfl⟩
  · rw [not_not.mp h6] at hstrip
    exact absurd hstrip (by simp)

lemma escapedScript_infix_renderedBody (A B : List Char) :
    escapedScript <:+: renderedBody (A ++ scriptPat ++ B) := by
  have hesc : escapeHtml (A ++ scriptPat ++ B)
      = escapeHtml A ++ escapedScript ++ escapeHtml B := by
    rw [escapeHtml_append, escapeHtml_append,
      show escapeHtml scriptPat = escapedScript from by decide]
  obtain ⟨C, D, hmem⟩ :=
    occ_mem_splitLines (escapeHtml A) escapedScript (escapeHtml B) (by decide)
  rw [← hesc] at hmem
  unfold renderedBody
  rw [formatLines_eq_map]
  exact (escapedScript_infix_formatLine C D).trans
    (mem_infix_joinNl _ _ (List.mem_map_of_mem _ hmem))

lemma escapedScript_infix_output (A B t : List Char) :
    escapedScript <:+: markdown_to_html (A ++ scriptPat ++ B) t := by
  obtain ⟨u, v, huv⟩ := escapedScript_infix_renderedBody A B
  exact ⟨tmplHead ++ t ++ tmplMid ++ u, v ++ tmplTail, by
    unfold markdown_to_html
    rw [← huv]
    simp [List.append_assoc]⟩

lemma formatLine_eq_renderBlock (line : List Char) :
    formatLine line = renderBlock (classifyLine line) := by
  unfold formatLine classifyLine
  split_ifs <;> rfl

/-! ### Further classification helper lemmas -/

lemma formatLine_para (line : List Char)
    (h1 : startsWith line "#### ".data = false)
    (h2 : startsWith line "### ".data = false)
    (h3 : startsWith line "## ".data = false)
    (h4 : startsWith line "# ".data = false)
    (h5 : pyStrip line ≠ "---".data)
    (h6 : pyStrip line ≠ []) :
    formatLine line = "<p>".data ++ line ++ "</p>".data := by
  unfold formatLine
  simp [h1, h2, h3, h4, h5, h6]

lemma renderedBody_nil : renderedBody [] = "<br>".data := by decide

/-! ### Lemmas for the `<h1>` scanner -/

lemma runH1_cons (st : Nat) (c : Char) (l : List Char) :
    runH1 st (c :: l) = runH1 (stepH1 st c) l := rfl

lemma runH1_append (st : Nat) (a b : List Char) :
    runH1 st (a ++ b) = runH1 (runH1 st a) b :=
  List.foldl_append _ _ _ _

lemma hitH1_append (a b : List Char) : ∀ st,
    hitH1 st (a ++ b) = (hitH1 st a || hitH1 (runH1 st a) b) := by
  induction a with
  | nil => intro st; simp [hitH1, runH1]
  | cons c a ih =>
    intro st
    rw [List.cons_append]
    show (if st = 3 ∧ c = '>' then true else hitH1 (stepH1 st c) (a ++ b)) = _
    rw [runH1_cons]
    by_cases h : st = 3 ∧ c = '>'
    · simp [hitH1, h]
    · simp only [if_neg h, ih (stepH1 st c)]
      simp [hitH1, h]

lemma stepH1_lt (st : Nat) : stepH1 st '<' = 1 := by
  unfold stepH1
  by_cases h : st = 0
  · subst h; simp [h1PatChar]
  · rw [if_neg, if_pos rfl]
    intro hc
    match st, h with
    | 1, _ => exact absurd hc (by decide)
    | 2, _ => exact absurd hc (by decide)
    | 3, _ => exact absurd hc (by decide)
    | n + 4, _ => exact absurd hc (by simp [h1PatChar])

/-- Completeness: a list that literally contains `<h1>` makes the scanner
fire, from any starting state. -/
lemma hitH1_complete : ∀ (t u : List Char) (st : Nat),
    hitH1 st (t ++ "<h1>".data ++ u) = true := by
  intro t
  induction t with
  | nil =>
    intro u st
    show hitH1 st ('<' :: 'h' :: '1' :: '>' :: u) = true
    show (if st = 3 ∧ '<' = '>' then true
      else hitH1 (stepH1 st '<') ('h' :: '1' :: '>' :: u)) = true
    rw [if_neg (by simp), stepH1_lt]
    simp [hitH1, stepH1, h1PatChar]
  | cons a t ih =>
    intro u st
    rw [List.cons_append, List.cons_append]
    show (if st = 3 ∧ a = '>' then true
      else hitH1 (stepH1 st a) (t ++ "<h1>".data ++ u)) = true
    split_ifs with h
    · rfl
    · exact ih u (stepH1 st a)

lemma hitH1_append_zero {a b : List Char}
    (ha : hitH1 0 a = false ∧ runH1 0 a = 0)
    (hb : hitH1 0 b = false ∧ runH1 0 b = 0) :
    hitH1 0 (a ++ b) = false ∧ runH1 0 (a ++ b) = 0 := by
  rw [hitH1_append, runH1_append, ha.1, ha.2, hb.2]
  simp [hb.1]

/-- The fully rendered document for input `#### Deep` contains no literal
`<h1>` substring. -/
lemma no_h1_in_deep_doc :
    ¬ "<h1>".data <:+: markdown_to_html "#### Deep".data "Conversation Export".data := by
  have p1 : hitH1 0 tmplHead = false ∧ runH1 0 tmplHead = 0 := by decide
  have p2 : hitH1 0 ("Conversation Export".data) = false
      ∧ runH1 0 ("Conversation Export".data) = 0 := by decide
  have p3 : hitH1 0 tmplMid = false ∧ runH1 0 tmplMid = 0 := by decide
  have p4 : hitH1 0 ("<h4>Deep</h4>".data) = false
      ∧ runH1 0 ("<h4>Deep</h4>".data) = 0 := by decide
  have p5 : hitH1 0 tmplTail = false ∧ runH1 0 tmplTail = 0 := by decide
  have hdoc : hitH1 0 (markdown_to_html "#### Deep".data "Conversation Export".data) = false := by
    unfold markdown_to_html
    rw [show renderedBody "#### Deep".data = "<h4>Deep</h4>".data from by decide]
    exact (hitH1_append_zero (hitH1_append_zero (hitH1_append_zero
      (hitH1_append_zero p1 p2) p3) p4) p5).1
  rintro ⟨u, v, huv⟩
  have hc := hitH1_complete u v 0
  rw [huv, hdoc] at hc
  exact absurd hc (by simp)


/-! ### Claim theorems -/

/-- Claim C1: for every markdown text `m` and title `t`, `markdown_to_html`
produces exactly one rendered HTML block per line of `m` (split on line
feed), and the blocks appear in the body in source-line order: the block
list is as long as the line list, its `i`-th entry renders the `i`-th line
(after escaping), and the document body is exactly these blocks joined. -/
theorem c1_block_per_line_in_order (m t : List Char) :
    (formatLines (splitLines (escapeHtml m))).length = (splitLines m).length ∧
    (∀ i : Nat, (formatLines (splitLines (escapeHtml m)))[i]?
      = ((splitLines m)[i]?).map (fun l => formatLine (escapeHtml l))) ∧
    markdown_to_html m t
      = tmplHead ++ t ++ tmplMid
        ++ joinNl (formatLines (splitLines (escapeHtml m))) ++ tmplTail := by
  refine ⟨?_, ?_, rfl⟩
  · rw [formatLines_eq_map, splitLines_escapeHtml, List.length_map, List.length_map]
  · intro i
    rw [formatLines_eq_map, splitLines_escapeHtml, List.getElem?_map, List.getElem?_map,
      Option.map_map]
    rfl

/-- Claim C2: entity escaping is applied exactly once, replacing `&` then `<`
then `>` over the whole input before any line classification: the chained
replacement equals a single character-by-character pass, each literal `&`
of the input contributes exactly `&amp;` to the escaped text, and a lone
`&` escapes to `&amp;`, not `&amp;amp;`. -/
theorem c2_escape_applied_once (a b s : List Char) :
    escapeHtml s = escapeChars s ∧
    escapeHtml (a ++ '&' :: b) = escapeHtml a ++ "&amp;".data ++ escapeHtml b ∧
    escapeHtml ['&'] = "&amp;".data ∧
    escapeHtml ['&'] ≠ "&amp;amp;".data := by
  refine ⟨escapeHtml_eq_escapeChars s, ?_, by decide, by decide⟩
  rw [show ('&' :: b) = ['&'] ++ b from rfl, escapeHtml_append, escapeHtml_append,
    show escapeHtml ['&'] = "&amp;".data from by decide]
  simp [List.append_assoc]

/-- Claim C3 (as stated, refuted): on the empty markdown string the rendered
document is not the bare template shell with zero content blocks joined;
the body holds one rendered block. -/
theorem c3_counterexample_empty_is_not_bare_shell :
    markdown_to_html [] "T".data
      ≠ tmplHead ++ "T".data ++ tmplMid ++ joinNl [] ++ tmplTail := by
  intro h
  unfold markdown_to_html at h
  rw [renderedBody_nil] at h
  simp only [List.append_assoc] at h
  have hbr :=
    List.append_cancel_right
      (List.append_cancel_left (List.append_cancel_left (List.append_cancel_left h)))
  exact absurd hbr (by decide)

/-- Claim C3 (amended): for every title `t`, rendering the empty markdown
string yields the template shell around exactly one rendered block, the
line break `<br>` produced by the single empty line of the split. -/
theorem c3_amended_empty_input_single_break (t : List Char) :
    markdown_to_html [] t = tmplHead ++ t ++ tmplMid ++ "<br>".data ++ tmplTail := by
  unfold markdown_to_html
  rw [renderedBody_nil]

/-- Claim C4: heading markers are checked longest first, so every line
starting with `'#### '` renders as a level-4 heading of the remainder; on
the concrete input `"#### Deep"` the document contains `<h4>Deep</h4>` and
contains no `<h1>` anywhere. -/
theorem c4_heading_priority :
    (∀ r : List Char,
      formatLine ("#### ".data ++ r) = "<h4>".data ++ r ++ "</h4>".data) ∧
    "<h4>Deep</h4>".data <:+: markdown_to_html "#### Deep".data "Conversation Export".data ∧
    ¬ "<h1>".data <:+: markdown_to_html "#### Deep".data "Conversation Export".data := by
  refine ⟨?_, ?_, no_h1_in_deep_doc⟩
  · intro r
    unfold formatLine
    rw [if_pos (startsWith_append "#### ".data r),
      show ("#### ".data ++ r).drop 5 = r from rfl]
  · refine ⟨tmplHead ++ "Conversation Export".data ++ tmplMid, tmplTail, ?_⟩
    unfold markdown_to_html
    rw [show renderedBody "#### Deep".data = "<h4>Deep</h4>".data from by decide]

/-- Claim C5 (as stated, refuted): the claim quantifies over every title, but
the title is inserted unescaped; with markdown and title both `<script>`,
the returned document does contain a literal `<script>` substring (inside
the `<title>` element). -/
theorem c5_counterexample_script_title :
    scriptPat <:+: markdown_to_html scriptPat scriptPat := by
  refine ⟨tmplHead, tmplMid ++ renderedBody scriptPat ++ tmplTail, ?_⟩
  unfold markdown_to_html
  simp [List.append_assoc]

/-- Claim C5 (amended): for every markdown input containing `<script>` and
every title that does not itself contain `<script>`, the output contains
`&lt;script&gt;` in its place and contains no literal `<script>` substring
anywhere in the returned document, regardless of how the containing line is
classified. -/
theorem c5_amended_escaping_precedence (A B t : List Char)
    (ht : ¬ scriptPat <:+: t) :
    escapedScript <:+: markdown_to_html (A ++ scriptPat ++ B) t ∧
    ¬ scriptPat <:+: markdown_to_html (A ++ scriptPat ++ B) t :=
  ⟨escapedScript_infix_output A B t, markdown_to_html_no_script _ t ht⟩

/-- Witness for C5 (amended) at the concrete input `<script>` with title
`T`. -/
theorem c5_amended_escaping_precedence_witness :
    escapedScript <:+: markdown_to_html ([] ++ scriptPat ++ []) "T".data ∧
    ¬ scriptPat <:+: markdown_to_html ([] ++ scriptPat ++ []) "T".data :=
  c5_amended_escaping_precedence [] [] "T".data (by decide)

/-- Claim C6: the renderer is total and deterministic: the embedding is a
total computable function (every application reduces to a result), and any
two invocations on equal inputs return the same output, with no dependence
on any other state. -/
theorem c6_total_deterministic (m₁ t₁ m₂ t₂ : List Char)
    (hm : m₁ = m₂) (ht : t₁ = t₂) :
    (∃ out : List Char, markdown_to_html m₁ t₁ = out) ∧
    markdown_to_html m₁ t₁ = markdown_to_html m₂ t₂ := by
  subst hm
  subst ht
  exact ⟨⟨_, rfl⟩, rfl⟩

/-- Witness for C6 on a concrete repeated invocation. -/
theorem c6_total_deterministic_witness :
    markdown_to_html "a".data "T".data = markdown_to_html "a".data "T".data :=
  (c6_total_deterministic "a".data "T".data "a".data "T".data rfl rfl).2

/-- Claim C7: the title string is inserted verbatim, character for character
and with no entity escaping, into the `<title>` element: the output is
literally the text ending in `<title>` followed by the unmodified title,
followed by text starting with `</title>`. -/
theorem c7_title_inserted_verbatim (m t : List Char) :
    markdown_to_html m t = tmplHead ++ t ++ (tmplMid ++ renderedBody m ++ tmplTail) ∧
    "<title>".data <:+ tmplHead ∧
    "</title>".data <+: tmplMid := by
  refine ⟨by simp [markdown_to_html, List.append_assoc], by decide, by decide⟩

/-- Claim C8: block classification is a pure per-line function with no
cross-line state: the code's cascade equals the spec's seven-case rule
table applied per line, the `i`-th rendered block depends only on the
`i`-th escaped line, and the body is the line-feed join of the per-line
renderings of the escaped lines. -/
theorem c8_pure_per_line_classification (m t : List Char) :
    (∀ line : List Char, formatLine line = renderBlock (classifyLine line)) ∧
    (∀ i : Nat, (formatLines (splitLines (escapeHtml m)))[i]?
      = ((splitLines (escapeHtml m))[i]?).map formatLine) ∧
    markdown_to_html m t
      = tmplHead ++ t ++ tmplMid
        ++ joinNl (formatLines (splitLines (escapeHtml m))) ++ tmplTail := by
  refine ⟨formatLine_eq_renderBlock, ?_, rfl⟩
  intro i
  rw [formatLines_eq_map, List.getElem?_map]

/-- Claim C9: in each server variant, a parsed POST body whose `markdown`
field is missing or empty is answered immediately with HTTP 400
`No markdown content provided`, and no conversion call of any kind is
made (the recorded call list is empty). -/
theorem c9_empty_markdown_rejected
    (pdf docx : List Char → Except (List Char) (List Nat))
    (fname : List Char → List Char → List Char)
    (script₁ script₂ : List Char → List Char → ScriptResult)
    (body : ParsedBody) (h : body.markdown.getD [] = []) :
    do_POST_v2 pdf docx fname "/api/convert".data body
      = ⟨400, "No markdown content provided".data, []⟩ ∧
    do_POST_v1 script₁ fname "/api/convert".data body
      = ⟨400, "No markdown content provided".data, []⟩ ∧
    do_POST_download script₂ "/convert".data body
      = ⟨400, "No markdown content provided".data, []⟩ := by
  refine ⟨?_, ?_, ?_⟩
  · simp [do_POST_v2, h]
  · simp [do_POST_v1, h]
  · simp [do_POST_download, h]

/-- Witness for C9 on a parsed body whose markdown field is the empty
string. -/
theorem c9_empty_markdown_rejected_witness :
    do_POST_v2 (fun _ => .ok []) (fun _ => .ok []) (fun _ _ => [])
        "/api/convert".data ⟨some [], none⟩
      = ⟨400, "No markdown content provided".data, []⟩ :=
  (c9_empty_markdown_rejected (fun _ => .ok []) (fun _ => .ok []) (fun _ _ => [])
    (fun _ _ => ⟨0, [], true, []⟩) (fun _ _ => ⟨0, [], true, []⟩)
    ⟨some [], none⟩ rfl).1

/-- Claim C10: a line beginning with five `#` characters matches none of the
four heading markers (each needs a space right after its hashes), so it is
rendered as a paragraph carrying the whole line verbatim, hashes included;
concretely `##### x` becomes `<p>##### x</p>`. -/
theorem c10_five_hashes_render_paragraph :
    (∀ r : List Char,
      formatLine ('#' :: '#' :: '#' :: '#' :: '#' :: r)
        = "<p>".data ++ ('#' :: '#' :: '#' :: '#' :: '#' :: r) ++ "</p>".data) ∧
    formatLine "##### x".data = "<p>##### x</p>".data := by
  constructor
  · intro r
    have hstrip : '#' ∈ pyStrip ('#' :: '#' :: '#' :: '#' :: '#' :: r) :=
      mem_pyStrip (by simp) (by decide)
    refine formatLine_para _ rfl rfl rfl rfl ?_ ?_
    · intro he
      rw [he] at hstrip
      exact absurd hstrip (by decide)
    · intro he
      rw [he] at hstrip
      exact absurd hstrip (by simp)
  · decide
